import Mathlib

/-!
Verification of the DenseNet notebook (`DenseNetNotebook.ipynb`).

The development embeds the notebook's architecture code at two levels:

* a *shape* semantics: every torch module used by the notebook is given its
  effect on tensor shapes `(n, c, h, w)`, with `none` denoting a runtime
  error (shape mismatch or output dimension below 1), following PyTorch's
  documented output-size arithmetic
  `out = (in + 2*padding - kernel) / stride + 1`;
* a *channel* semantics: a feature map is a list of channel planes (the
  plane contents are abstract), and every module maps channel lists to
  channel lists, which makes the concatenation structure of dense layers
  and dense blocks visible.

The training loop `train_model`, the kwargs-dropping constructor
`densenet121`, the visualization cell and the mutation behaviour of a
forward pass are embedded further down.
-/

namespace DenseNetNB

/-- Shape of a 4-d tensor `(batch, channels, height, width)`. -/
structure Sh4 where
  n : ℕ
  c : ℕ
  h : ℕ
  w : ℕ
deriving DecidableEq, Repr

/-- PyTorch output-size arithmetic for one spatial dimension of a
convolution or pooling with kernel `k`, stride `s`, padding `p`. -/
def convOutDim (k s p x : ℕ) : ℕ := (x + 2 * p - k) / s + 1

/-- Shape semantics of `nn.Conv2d(inC, outC, kernel_size=k, stride=s, padding=p)`:
requires the input channel count to match and the padded input to cover the
kernel, else PyTorch raises. -/
def conv2dSh (inC outC k s p : ℕ) (x : Sh4) : Option Sh4 :=
  if x.c = inC ∧ k ≤ x.h + 2 * p ∧ k ≤ x.w + 2 * p then
    some ⟨x.n, outC, convOutDim k s p x.h, convOutDim k s p x.w⟩
  else none

/-- Shape semantics of `nn.BatchNorm2d(nf)`: shape-preserving, errors unless
the channel count equals `nf`. -/
def batchNorm2dSh (nf : ℕ) (x : Sh4) : Option Sh4 :=
  if x.c = nf then some x else none

/-- Shape semantics of `nn.MaxPool2d(kernel_size=k, stride=s, padding=p)`. -/
def maxPool2dSh (k s p : ℕ) (x : Sh4) : Option Sh4 :=
  if k ≤ x.h + 2 * p ∧ k ≤ x.w + 2 * p then
    some ⟨x.n, x.c, convOutDim k s p x.h, convOutDim k s p x.w⟩
  else none

/-- Shape semantics of `nn.AvgPool2d(kernel_size=k, stride=s)` (and of
`F.avg_pool2d`, whose default stride equals the kernel size): no padding. -/
def avgPool2dSh (k s : ℕ) (x : Sh4) : Option Sh4 :=
  if k ≤ x.h ∧ k ≤ x.w then
    some ⟨x.n, x.c, convOutDim k s 0 x.h, convOutDim k s 0 x.w⟩
  else none

/-- Shape semantics of `torch.cat([x, y], 1)`: channel counts add, all other
dimensions must agree. -/
def catChanSh (x y : Sh4) : Option Sh4 :=
  if x.n = y.n ∧ x.h = y.h ∧ x.w = y.w then
    some ⟨x.n, x.c + y.c, x.h, x.w⟩
  else none

/-- Shape semantics of `_DenseLayer(nif, g, bn, drop_rate).forward`:
norm1 / relu1 / conv1 (1x1, `bn*g` filters) / norm2 / relu2 /
conv2 (3x3, padding 1, `g` filters), optional dropout (shape preserving),
then `torch.cat([x, new_features], 1)`.  ReLU and dropout do not change
shapes and are omitted at this level. -/
def denseLayerSh (nif g bn : ℕ) (x : Sh4) : Option Sh4 :=
  ((((batchNorm2dSh nif x).bind
      (conv2dSh nif (bn * g) 1 1 0)).bind
      (batchNorm2dSh (bn * g))).bind
      (conv2dSh (bn * g) g 3 1 1)).bind
    (catChanSh x)

/-- The `num_input_features` arguments of the layers built by
`_DenseBlock.__init__`: layer `i` (0-based) receives
`num_input_features + i * growth_rate`. -/
def denseBlockNifs (L nif g : ℕ) : List ℕ :=
  (List.range L).map fun i => nif + i * g

/-- Shape semantics of `_DenseBlock(L, nif, bn, g, drop).forward`
(the inherited `nn.Sequential` forward): the layers built by
`_DenseBlock.__init__` are applied in order. -/
def denseBlockSh (L nif bn g : ℕ) (x : Sh4) : Option Sh4 :=
  (denseBlockNifs L nif g).foldl (fun acc m => acc.bind (denseLayerSh m g bn)) (some x)

/-- Shape semantics of `_Transition(nif, nof).forward`: norm / relu /
conv (1x1, `nof` filters) / `nn.AvgPool2d(kernel_size=2, stride=2)`. -/
def transitionSh (nif nof : ℕ) (x : Sh4) : Option Sh4 :=
  ((batchNorm2dSh nif x).bind
      (conv2dSh nif nof 1 1 0)).bind
    (avgPool2dSh 2 2)

/-- Shape semantics of the dense-block / transition chain that
`DenseNet.__init__` appends to `self.features`: for each entry of
`block_config` one `_DenseBlock` on the running `num_features`, then — for
every entry but the last — a `_Transition` from `num_features` to
`num_features // 2`. -/
def stagesSh (bn g : ℕ) : ℕ → List ℕ → Sh4 → Option Sh4
  | _, [], x => some x
  | nf, [L], x => denseBlockSh L nf bn g x
  | nf, L :: L' :: rest, x =>
    (denseBlockSh L nf bn g x).bind fun y =>
      (transitionSh (nf + L * g) ((nf + L * g) / 2) y).bind
        (stagesSh bn g ((nf + L * g) / 2) (L' :: rest))

/-- The running `num_features` value at the end of `DenseNet.__init__`
(the channel count entering `norm5` and the classifier). -/
def finalNumFeatures (g : ℕ) : ℕ → List ℕ → ℕ
  | nf, [] => nf
  | nf, [L] => nf + L * g
  | nf, L :: L' :: rest => finalNumFeatures g ((nf + L * g) / 2) (L' :: rest)

/-- Bookkeeping performed by the loop in `DenseNet.__init__`: for each stage
the tuple `(num_layers, num_input_features of its _DenseBlock,
num_output_features of the following _Transition — none for the last
stage)`, paired with the final `num_features` (the classifier's
`in_features`). -/
def buildStages (g : ℕ) : ℕ → List ℕ → List (ℕ × ℕ × Option ℕ) × ℕ
  | nf, [] => ([], nf)
  | nf, [L] => ([(L, nf, none)], nf + L * g)
  | nf, L :: L' :: rest =>
    let p := buildStages g ((nf + L * g) / 2) (L' :: rest)
    ((L, nf, some ((nf + L * g) / 2)) :: p.1, p.2)

/-- The classifier built by `DenseNet.__init__`:
`nn.Linear(num_features, num_classes)` as its `(in_features, out_features)`. -/
def classifierSh (g m : ℕ) (cfg : List ℕ) (numClasses : ℕ) : ℕ × ℕ :=
  ((buildStages g m cfg).2, numClasses)

/-- Shape semantics of `DenseNet.forward` up to and including the
`F.avg_pool2d(out, kernel_size=7)` call: `conv0` (7x7, stride 2, padding 3),
`norm0`, `relu0`, `pool0` (max 3x3, stride 2, padding 1), the dense blocks
and transitions, `norm5`, the final relu and the 7x7 average pool.  Every
convolution and pooling of the network occurs in this prefix. -/
def densenetPoolSh (g : ℕ) (cfg : List ℕ) (m bn : ℕ) (x : Sh4) : Option Sh4 :=
  ((((conv2dSh 3 m 7 2 3 x).bind
      (batchNorm2dSh m)).bind
      (maxPool2dSh 3 2 1)).bind
      (stagesSh bn g m cfg)).bind fun y =>
    (batchNorm2dSh (finalNumFeatures g m cfg) y).bind
      (avgPool2dSh 7 7)

/-- Shape semantics of `nn.Linear(inF, outF)` applied to a 2-d input:
errors unless the feature dimension equals `in_features`. -/
def linearSh (inF outF : ℕ) (x : ℕ × ℕ) : Option (ℕ × ℕ) :=
  if x.2 = inF then some (x.1, outF) else none

/-- Shape semantics of the whole `DenseNet.forward`: the pooled features are
flattened by `.view(features.size(0), -1)` to `(n, c*h*w)` and passed to the
classifier. -/
def densenetForwardSh (g : ℕ) (cfg : List ℕ) (m bn numClasses : ℕ) (x : Sh4) :
    Option (ℕ × ℕ) :=
  (densenetPoolSh g cfg m bn x).bind fun y =>
    linearSh (finalNumFeatures g m cfg) numClasses (y.n, y.c * y.h * y.w)

/-- Spatial size of one dimension after the notebook's feature extractor:
`conv0` (7/2/3), `pool0` (3/2/1), then one halving per transition
(`t` transitions). -/
def featuresSpatial (t H : ℕ) : ℕ :=
  (fun h => h / 2)^[t] (convOutDim 3 2 1 (convOutDim 7 2 3 H))

/-!
Channel-level semantics: a feature map is a list of channel planes of some
abstract plane type `α`; each module maps channel lists to channel lists.
Per-channel (BatchNorm2d) and per-element (ReLU, dropout) operations become
maps over the list; a convolution computes each of its `outC` output
channels from all input channels through an abstract kernel function
carrying the layer's weights.
-/

/-- `mapWithIdx f i [a, b, ...] = [f i a, f (i+1) b, ...]`: per-channel
application of an index-dependent transform (BatchNorm2d has one affine
pair per channel). -/
def mapWithIdx {α β : Type} (f : ℕ → α → β) : ℕ → List α → List β
  | _, [] => []
  | i, a :: t => f i a :: mapWithIdx f (i + 1) t

/-- Channel semantics of `nn.BatchNorm2d(nf)`: per-channel transform `f`,
errors unless the channel count equals `nf`. -/
def batchNorm2dC {α : Type} (nf : ℕ) (f : ℕ → α → α) (x : List α) :
    Option (List α) :=
  if x.length = nf then some (mapWithIdx f 0 x) else none

/-- Channel semantics of `nn.ReLU` (and of any other per-plane map). -/
def reluC {α : Type} (r : α → α) (x : List α) : List α := x.map r

/-- Channel semantics of `nn.Conv2d(inC, outC, ...)`: each of the `outC`
output channels is computed from all input channels by the kernel function
`k` (which carries the layer's weights); errors unless the input channel
count equals `inC`. -/
def conv2dC {α : Type} (inC outC : ℕ) (k : ℕ → List α → α) (x : List α) :
    Option (List α) :=
  if x.length = inC then some ((List.range outC).map fun j => k j x) else none

/-- Channel semantics of `F.dropout`: a per-plane map (dropout zeroes random
elements inside each plane; it never changes the channel structure). -/
def dropoutC {α : Type} (d : α → α) (x : List α) : List α := x.map d

/-- The learned functions of one `_DenseLayer`: the per-channel transforms
of its two batch norms, the elementwise relu, the kernel functions of its
two convolutions, and the dropout map. -/
structure DLP (α : Type) where
  bn1 : ℕ → α → α
  relu : α → α
  conv1 : ℕ → List α → α
  bn2 : ℕ → α → α
  conv2 : ℕ → List α → α
  drop : α → α

/-- Channel semantics of `_DenseLayer(nif, g, bn, dr).forward`: the
sequential body `norm.1 / relu.1 / conv.1 (bn*g filters, 1x1) /
norm.2 / relu.2 / conv.2 (g filters, 3x3)` computes `new_features`;
`F.dropout` is applied when `drop_rate > 0`; the result is
`torch.cat([x, new_features], 1)`, i.e. list append. -/
def denseLayerForward {α : Type} (nif g bn : ℕ) (dr : ℚ) (p : DLP α)
    (x : List α) : Option (List α) :=
  ((((((batchNorm2dC nif p.bn1 x).map (reluC p.relu)).bind
      (conv2dC nif (bn * g) p.conv1)).bind
      (batchNorm2dC (bn * g) p.bn2)).map (reluC p.relu)).bind
      (conv2dC (bn * g) g p.conv2)).map fun nf0 =>
    x ++ (if 0 < dr then dropoutC p.drop nf0 else nf0)

/-- Channel semantics of `_DenseBlock.forward`: the layers built by
`_DenseBlock.__init__` (layer `i` with `num_input_features + i * growth_rate`
input channels, see `denseBlockNifs`) applied in order, each paired with its
learned functions. -/
def denseBlockForward {α : Type} (g bn : ℕ) (dr : ℚ) (nif : ℕ)
    (ps : List (DLP α)) (x : List α) : Option (List α) :=
  ((denseBlockNifs ps.length nif g).zip ps).foldl
    (fun acc pr => acc.bind (denseLayerForward pr.1 g bn dr pr.2)) (some x)

/-- A concrete set of learned functions over rational channel planes, used
to instantiate the channel semantics on concrete inputs. -/
def constDLP : DLP ℚ :=
  ⟨fun _ a => a, id, fun _ _ => 0, fun _ a => a, fun _ _ => 0, id⟩

/-!
The training loop `train_model(model, criterion, optim_scheduler, num_epochs)`.
The model lives in a mutable slot updated in place each epoch by the
training phase; `best_model` starts as an alias of that slot and becomes an
independent deep copy only when an epoch's validation accuracy strictly
exceeds `best_acc`.  The embedding makes the slot explicit: the fold state is
`(model, best_acc, best_snapshot)` where `best_snapshot = none` means
`best_model` still aliases the live model.
-/

/-- The model value after the training phases of epochs `0 .. k-1`:
`step e` is the in-place effect of epoch `e`'s training phase (batch loop,
backpropagation, optimizer steps). -/
def mAfter {M : Type} (step : ℕ → M → M) (m0 : M) : ℕ → M
  | 0 => m0
  | k + 1 => step k (mAfter step m0 k)

/-- One epoch of `train_model`: the training phase updates the model in
place, the validation phase computes `epoch_acc = accOf model`, and when
`epoch_acc > best_acc` both `best_acc` and the deep-copied `best_model`
are replaced. -/
def trainEpoch {M : Type} (step : ℕ → M → M) (accOf : M → ℚ)
    (st : M × ℚ × Option M) (e : ℕ) : M × ℚ × Option M :=
  let m := step e st.1
  let a := accOf m
  if st.2.1 < a then (m, a, some m) else (m, st.2.1, st.2.2)

/-- The `(model, best_acc, best_snapshot)` state after all epochs, starting
from `best_acc = 0.0` and `best_model` aliasing the live model. -/
def trainFold {M : Type} (step : ℕ → M → M) (accOf : M → ℚ) (m0 : M)
    (numEpochs : ℕ) : M × ℚ × Option M :=
  (List.range numEpochs).foldl (trainEpoch step accOf) (m0, 0, none)

/-- `train_model` returns `best_model`: the deep copy when one was taken,
otherwise the live (fully trained) model it still aliases. -/
def train_model {M : Type} (step : ℕ → M → M) (accOf : M → ℚ) (m0 : M)
    (numEpochs : ℕ) : M :=
  let st := trainFold step accOf m0 numEpochs
  st.2.2.getD st.1

/-- The validation accuracy printed for epoch `e`: the accuracy of the model
as it stands after epoch `e`'s training phase. -/
def accSeq {M : Type} (step : ℕ → M → M) (accOf : M → ℚ) (m0 : M) (e : ℕ) : ℚ :=
  accOf (mAfter step m0 (e + 1))

/-- The value of `best_acc` after `k` epochs. -/
def bestAccAt {M : Type} (step : ℕ → M → M) (accOf : M → ℚ) (m0 : M) : ℕ → ℚ
  | 0 => 0
  | k + 1 =>
    if bestAccAt step accOf m0 k < accSeq step accOf m0 k then
      accSeq step accOf m0 k
    else bestAccAt step accOf m0 k

/-- The deep-copy snapshot held by `best_model` after `k` epochs
(`none` while `best_model` still aliases the live model). -/
def bestSnapAt {M : Type} (step : ℕ → M → M) (accOf : M → ℚ) (m0 : M) :
    ℕ → Option M
  | 0 => none
  | k + 1 =>
    if bestAccAt step accOf m0 k < accSeq step accOf m0 k then
      some (mAfter step m0 (k + 1))
    else bestSnapAt step accOf m0 k

/-!
The visualization cell `visualize_model`.
-/

/-- Index of the first maximum of a list of scores
(`torch.max(outputs.data, 1)` on one row). -/
def argmaxAux : List ℚ → ℕ → ℚ → ℕ → ℕ
  | [], b, _, _ => b
  | v :: t, b, bv, i => if bv < v then argmaxAux t i v (i + 1) else argmaxAux t b bv (i + 1)

/-- `argmaxIdx` of a row of logits; 0 on an empty row. -/
def argmaxIdx : List ℚ → ℕ
  | [] => 0
  | v :: t => argmaxAux t 0 v 1

/-- The title rendered by one iteration of `visualize_model`: `preds` is
computed from the model outputs by `torch.max(outputs.data, 1)` but then
unused — the title string is
`'pred: {}'.format(dset_classes[labels.data[0]])`, built from the batch's
first ground-truth label. -/
def visualize_model_title (classes : List String) (labels : List ℕ)
    (outputs : List (List ℚ)) : String :=
  let _preds := outputs.map argmaxIdx
  "pred: " ++ classes.getD (labels.getD 0 0) ""

/-- The title `visualize_model` would have to render for the displayed image
to be shown with the model's predicted label: the class name selected by the
argmax of the model's output logits for that image. -/
def predictedTitle (classes : List String) (outputs : List (List ℚ)) : String :=
  "pred: " ++ classes.getD ((outputs.map argmaxIdx).getD 0 0) ""

/-!
`densenet121` and the construction state of a network.
-/

/-- The configuration record fixed by `DenseNet.__init__`. -/
structure DenseNetCfg where
  growth_rate : ℕ
  block_config : List ℕ
  num_init_features : ℕ
  bn_size : ℕ
  drop_rate : ℚ
  num_classes : ℕ
deriving DecidableEq, Repr

/-- `densenet121(pretrained=False, **kwargs)`: builds
`DenseNet(num_init_features=64, growth_rate=32, block_config=(6, 12, 24, 16))`
— with the remaining parameters at their defaults `bn_size=4`, `drop_rate=0`,
`num_classes=1000` — and loads pretrained weights exactly when `pretrained`
is true.  The collected keyword arguments are never forwarded.  The result
is the configuration of the built model paired with whether
`model_zoo.load_url` was called. -/
def densenet121 (pretrained : Bool) (kwargs : List (String × ℕ)) :
    DenseNetCfg × Bool :=
  let _ := kwargs
  (⟨32, [6, 12, 24, 16], 64, 4, 0, 1000⟩, pretrained)

/-!
Mutable state of a constructed network.  Beyond its structural
configuration, an `nn.Module` owns parameter tensors (updated by
`optimizer.step()`) and buffer tensors: every `nn.BatchNorm2d` holds
`running_mean`, `running_var` and `num_batches_tracked` buffers, and a
training-mode forward pass updates them in place (`num_batches_tracked` is
incremented by one per training-mode call).  The state tracks the `norm0`
batch norm's `num_batches_tracked` buffer as the representative buffer;
parameters are an abstract value of type `P`.
-/

/-- The state of a constructed `DenseNet` instance: the structural data
fixed by `__init__` (configuration, per-stage channel bookkeeping,
classifier input size), the parameter collection, and the `norm0` batch
norm's `num_batches_tracked` buffer. -/
structure NetState (P : Type) where
  cfg : DenseNetCfg
  stages : List (ℕ × ℕ × Option ℕ)
  classifier_in : ℕ
  params : P
  norm0_batches_tracked : ℕ
deriving DecidableEq

/-- `DenseNet.__init__`: derives the structural bookkeeping from the
configuration; buffers start at zero. -/
def mkDenseNet {P : Type} (cfg : DenseNetCfg) (p : P) : NetState P :=
  ⟨cfg, (buildStages cfg.growth_rate cfg.num_init_features cfg.block_config).1,
    (buildStages cfg.growth_rate cfg.num_init_features cfg.block_config).2, p, 0⟩

/-- `DenseNet.forward` as a state transformer: the output is given by the
shape semantics; in training mode the batch-norm buffers are updated in
place (`num_batches_tracked` incremented), in eval mode the state is
untouched.  Configuration and parameters are never written. -/
def NetState.forward {P : Type} (training : Bool) (s : NetState P) (x : Sh4) :
    Option (ℕ × ℕ) × NetState P :=
  (densenetForwardSh s.cfg.growth_rate s.cfg.block_config s.cfg.num_init_features
      s.cfg.bn_size s.cfg.num_classes x,
    if training then
      ⟨s.cfg, s.stages, s.classifier_in, s.params, s.norm0_batches_tracked + 1⟩
    else s)

/-- `optimizer.step()` (SGD over `model.parameters()`): updates the
parameter collection only; configuration and buffers are untouched. -/
def sgdStep {P : Type} (f : P → P) (s : NetState P) : NetState P :=
  ⟨s.cfg, s.stages, s.classifier_in, f s.params, s.norm0_batches_tracked⟩

/-- The state of a constructed `_DenseLayer` instance: the arguments fixed
by `__init__`, the parameter collection, and the `norm.1` batch norm's
`num_batches_tracked` buffer. -/
structure LayerState (P : Type) where
  num_input_features : ℕ
  growth_rate : ℕ
  bn_size : ℕ
  drop_rate : ℚ
  params : P
  batches_tracked : ℕ
deriving DecidableEq

/-- `_DenseLayer.forward` as a state transformer, analogous to
`NetState.forward`. -/
def LayerState.forward {P : Type} (training : Bool) (s : LayerState P)
    (x : Sh4) : Option Sh4 × LayerState P :=
  (denseLayerSh s.num_input_features s.growth_rate s.bn_size x,
    if training then
      ⟨s.num_input_features, s.growth_rate, s.bn_size, s.drop_rate, s.params,
        s.batches_tracked + 1⟩
    else s)

/-!
Evaluation lemmas for the shape semantics.
-/

theorem conv2dSh_pos (inC outC k s p : ℕ) (x : Sh4) (h1 : x.c = inC)
    (h2 : k ≤ x.h + 2 * p) (h3 : k ≤ x.w + 2 * p) :
    conv2dSh inC outC k s p x =
      some ⟨x.n, outC, convOutDim k s p x.h, convOutDim k s p x.w⟩ := by
  unfold conv2dSh
  rw [if_pos ⟨h1, h2, h3⟩]

theorem batchNorm2dSh_pos (nf : ℕ) (x : Sh4) (h : x.c = nf) :
    batchNorm2dSh nf x = some x := by
  unfold batchNorm2dSh
  rw [if_pos h]

theorem maxPool2dSh_pos (k s p : ℕ) (x : Sh4) (h2 : k ≤ x.h + 2 * p)
    (h3 : k ≤ x.w + 2 * p) :
    maxPool2dSh k s p x =
      some ⟨x.n, x.c, convOutDim k s p x.h, convOutDim k s p x.w⟩ := by
  unfold maxPool2dSh
  rw [if_pos ⟨h2, h3⟩]

theorem avgPool2dSh_pos (k s : ℕ) (x : Sh4) (h2 : k ≤ x.h) (h3 : k ≤ x.w) :
    avgPool2dSh k s x =
      some ⟨x.n, x.c, convOutDim k s 0 x.h, convOutDim k s 0 x.w⟩ := by
  unfold avgPool2dSh
  rw [if_pos ⟨h2, h3⟩]

theorem catChanSh_pos (x y : Sh4) (h1 : x.n = y.n) (h2 : x.h = y.h)
    (h3 : x.w = y.w) : catChanSh x y = some ⟨x.n, x.c + y.c, x.h, x.w⟩ := by
  unfold catChanSh
  rw [if_pos ⟨h1, h2, h3⟩]

/-- A dense layer on a matching input of positive spatial size: channel
count grows by the growth rate, spatial size is preserved. -/
theorem denseLayerSh_eval (c g bn n h w : ℕ) (hh : 1 ≤ h) (hw : 1 ≤ w) :
    denseLayerSh c g bn ⟨n, c, h, w⟩ = some ⟨n, c + g, h, w⟩ := by
  have e1 : convOutDim 1 1 0 h = h := by unfold convOutDim; omega
  have e2 : convOutDim 1 1 0 w = w := by unfold convOutDim; omega
  have e3 : convOutDim 3 1 1 h = h := by unfold convOutDim; omega
  have e4 : convOutDim 3 1 1 w = w := by unfold convOutDim; omega
  unfold denseLayerSh
  rw [batchNorm2dSh_pos c ⟨n, c, h, w⟩ rfl, Option.some_bind,
    conv2dSh_pos c (bn * g) 1 1 0 ⟨n, c, h, w⟩ rfl (by simpa using hh)
      (by simpa using hw)]
  simp only [e1, e2, Option.some_bind]
  rw [batchNorm2dSh_pos (bn * g) ⟨n, bn * g, h, w⟩ rfl, Option.some_bind,
    conv2dSh_pos (bn * g) g 3 1 1 ⟨n, bn * g, h, w⟩ rfl (by simp; omega)
      (by simp; omega)]
  simp only [e3, e4, Option.some_bind]
  rw [catChanSh_pos ⟨n, c, h, w⟩ ⟨n, g, h, w⟩ rfl rfl rfl]

theorem denseBlockNifs_succ (L nif g : ℕ) :
    denseBlockNifs (L + 1) nif g = denseBlockNifs L nif g ++ [nif + L * g] := by
  unfold denseBlockNifs
  rw [List.range_succ, List.map_append]
  rfl

theorem denseBlockSh_succ (L nif bn g : ℕ) (x : Sh4) :
    denseBlockSh (L + 1) nif bn g x =
      (denseBlockSh L nif bn g x).bind (denseLayerSh (nif + L * g) g bn) := by
  unfold denseBlockSh
  rw [denseBlockNifs_succ, List.foldl_append]
  rfl

/-- A dense block on a matching input of positive spatial size: channel
count grows by `num_layers * growth_rate`, spatial size is preserved. -/
theorem denseBlockSh_eval (L c g bn n h w : ℕ) (hh : 1 ≤ h) (hw : 1 ≤ w) :
    denseBlockSh L c bn g ⟨n, c, h, w⟩ = some ⟨n, c + L * g, h, w⟩ := by
  induction L with
  | zero => simp [denseBlockSh, denseBlockNifs]
  | succ L ih =>
    rw [denseBlockSh_succ, ih, Option.some_bind,
      denseLayerSh_eval (c + L * g) g bn n h w hh hw]
    have : c + L * g + g = c + (L + 1) * g := by ring
    rw [this]

/-- A transition layer on a matching input of spatial size at least 2:
channel count becomes `num_output_features`, spatial size is halved
(rounding down). -/
theorem transitionSh_eval (cin cout n h w : ℕ) (hh : 2 ≤ h) (hw : 2 ≤ w) :
    transitionSh cin cout ⟨n, cin, h, w⟩ = some ⟨n, cout, h / 2, w / 2⟩ := by
  have e1 : convOutDim 1 1 0 h = h := by unfold convOutDim; omega
  have e2 : convOutDim 1 1 0 w = w := by unfold convOutDim; omega
  have e3 : convOutDim 2 2 0 h = h / 2 := by unfold convOutDim; omega
  have e4 : convOutDim 2 2 0 w = w / 2 := by unfold convOutDim; omega
  unfold transitionSh
  rw [batchNorm2dSh_pos cin ⟨n, cin, h, w⟩ rfl, Option.some_bind,
    conv2dSh_pos cin cout 1 1 0 ⟨n, cin, h, w⟩ rfl (by simp; omega)
      (by simp; omega)]
  simp only [e1, e2, Option.some_bind]
  rw [avgPool2dSh_pos 2 2 ⟨n, cout, h, w⟩ (by simpa using hh) (by simpa using hw)]
  simp [e3, e4]

theorem iterate_half_le (t h : ℕ) : (fun a => a / 2)^[t] h ≤ h := by
  induction t generalizing h with
  | zero => simp
  | succ t ih =>
    rw [Function.iterate_succ_apply]
    exact le_trans (ih (h / 2)) (Nat.div_le_self h 2)

/-- The dense-block / transition chain on a matching input whose spatial
size survives all halvings with at least 7 pixels: the channel count becomes
the final `num_features` and each transition halves the spatial size. -/
theorem stagesSh_eval (bn g : ℕ) (cfg : List ℕ) (nf n h w : ℕ)
    (hcfg : cfg ≠ []) (hh : 7 ≤ (fun a => a / 2)^[cfg.length - 1] h)
    (hw : 7 ≤ (fun a => a / 2)^[cfg.length - 1] w) :
    stagesSh bn g nf cfg ⟨n, nf, h, w⟩ =
      some ⟨n, finalNumFeatures g nf cfg, (fun a => a / 2)^[cfg.length - 1] h,
        (fun a => a / 2)^[cfg.length - 1] w⟩ := by
  induction cfg generalizing nf h w with
  | nil => exact absurd rfl hcfg
  | cons L rest ih =>
    cases rest with
    | nil =>
      simp only [List.length_cons, List.length_nil, Nat.add_sub_cancel,
        Function.iterate_zero, id] at hh hw ⊢
      show denseBlockSh L nf bn g ⟨n, nf, h, w⟩ = _
      rw [denseBlockSh_eval L nf g bn n h w (by omega) (by omega)]
      rfl
    | cons L' rest' =>
      have hlen : (L :: L' :: rest').length - 1 = ((L' :: rest').length - 1) + 1 := by
        simp
      rw [hlen] at hh hw ⊢
      rw [Function.iterate_succ_apply] at hh hw ⊢
      have hh2 : 7 ≤ h / 2 := le_trans hh (iterate_half_le _ _)
      have hw2 : 7 ≤ w / 2 := le_trans hw (iterate_half_le _ _)
      show (denseBlockSh L nf bn g ⟨n, nf, h, w⟩).bind _ = _
      rw [denseBlockSh_eval L nf g bn n h w (by omega) (by omega),
        Option.some_bind,
        transitionSh_eval (nf + L * g) ((nf + L * g) / 2) n h w (by omega)
          (by omega), Option.some_bind,
        ih ((nf + L * g) / 2) (h / 2) (w / 2) (by simp) hh hw]
      rfl

theorem featuresSpatial_zero_le (t : ℕ) : featuresSpatial t 0 ≤ 1 := by
  have h1 : convOutDim 3 2 1 (convOutDim 7 2 3 0) = 1 := by rfl
  unfold featuresSpatial
  rw [h1]
  exact iterate_half_le t 1

/-- Full forward pass, general form: on a batch `(n, 3, H, W)` whose
feature-extractor output spatial sizes land in `[7, 13]` (so that the final
7x7 average pool emits `1 x 1`), the network emits `(n, num_classes)`. -/
theorem densenetForwardSh_eval (g : ℕ) (cfg : List ℕ) (m bn nc n H W : ℕ)
    (hcfg : cfg ≠ [])
    (hH1 : 7 ≤ featuresSpatial (cfg.length - 1) H)
    (hH2 : featuresSpatial (cfg.length - 1) H ≤ 13)
    (hW1 : 7 ≤ featuresSpatial (cfg.length - 1) W)
    (hW2 : featuresSpatial (cfg.length - 1) W ≤ 13) :
    densenetForwardSh g cfg m bn nc ⟨n, 3, H, W⟩ = some (n, nc) := by
  have hH0 : 1 ≤ H := by
    rcases Nat.eq_zero_or_pos H with h0 | h1
    · exfalso
      rw [h0] at hH1
      have := featuresSpatial_zero_le (cfg.length - 1)
      omega
    · exact h1
  have hW0 : 1 ≤ W := by
    rcases Nat.eq_zero_or_pos W with h0 | h1
    · exfalso
      rw [h0] at hW1
      have := featuresSpatial_zero_le (cfg.length - 1)
      omega
    · exact h1
  have ha1 : 1 ≤ convOutDim 7 2 3 H := by unfold convOutDim; omega
  have ha2 : 1 ≤ convOutDim 7 2 3 W := by unfold convOutDim; omega
  have hfH : featuresSpatial (cfg.length - 1) H =
      (fun a => a / 2)^[cfg.length - 1] (convOutDim 3 2 1 (convOutDim 7 2 3 H)) := rfl
  have hfW : featuresSpatial (cfg.length - 1) W =
      (fun a => a / 2)^[cfg.length - 1] (convOutDim 3 2 1 (convOutDim 7 2 3 W)) := rfl
  unfold densenetForwardSh densenetPoolSh
  rw [conv2dSh_pos 3 m 7 2 3 ⟨n, 3, H, W⟩ rfl (by simp; omega) (by simp; omega),
    Option.some_bind,
    batchNorm2dSh_pos m ⟨n, m, convOutDim 7 2 3 H, convOutDim 7 2 3 W⟩ rfl,
    Option.some_bind,
    maxPool2dSh_pos 3 2 1 ⟨n, m, convOutDim 7 2 3 H, convOutDim 7 2 3 W⟩
      (by simp; omega) (by simp; omega), Option.some_bind,
    stagesSh_eval bn g cfg m n (convOutDim 3 2 1 (convOutDim 7 2 3 H))
      (convOutDim 3 2 1 (convOutDim 7 2 3 W)) hcfg (hfH ▸ hH1) (hfW ▸ hW1),
    Option.some_bind,
    batchNorm2dSh_pos (finalNumFeatures g m cfg) _ rfl, Option.some_bind,
    avgPool2dSh_pos 7 7 _ (by simpa using hfH ▸ hH1) (by simpa using hfW ▸ hW1)]
  have hc1 : convOutDim 7 7 0 ((fun a => a / 2)^[cfg.length - 1]
      (convOutDim 3 2 1 (convOutDim 7 2 3 H))) = 1 := by
    rw [← hfH]
    unfold convOutDim
    omega
  have hc2 : convOutDim 7 7 0 ((fun a => a / 2)^[cfg.length - 1]
      (convOutDim 3 2 1 (convOutDim 7 2 3 W))) = 1 := by
    rw [← hfW]
    unfold convOutDim
    omega
  rw [Option.some_bind]
  show linearSh _ _ (n, finalNumFeatures g m cfg * (convOutDim 7 7 0 _) *
    (convOutDim 7 7 0 _)) = _
  rw [hc1, hc2]
  unfold linearSh
  simp

theorem buildStages_length (g : ℕ) :
    ∀ (cfg : List ℕ) (nf : ℕ), (buildStages g nf cfg).1.length = cfg.length := by
  intro cfg
  induction cfg with
  | nil => intro nf; rfl
  | cons L rest ih =>
    intro nf
    cases rest with
    | nil => rfl
    | cons L' rest' =>
      show ((L, nf, some ((nf + L * g) / 2)) ::
        (buildStages g ((nf + L * g) / 2) (L' :: rest')).1).length = _
      simp [ih]

theorem buildStages_head (g nf L : ℕ) (rest : List ℕ) :
    ∃ o tl, (buildStages g nf (L :: rest)).1 = (L, nf, o) :: tl := by
  cases rest with
  | nil => exact ⟨none, [], rfl⟩
  | cons L' rest' =>
    exact ⟨some ((nf + L * g) / 2),
      (buildStages g ((nf + L * g) / 2) (L' :: rest')).1, rfl⟩

/-- Adjacent stages in the `DenseNet.__init__` bookkeeping: the next
stage's block input is the halved output of the current stage, and the
transition between them is built with exactly that output count. -/
theorem buildStages_chain (g : ℕ) :
    ∀ (cfg : List ℕ) (nf i : ℕ) (si si1 : ℕ × ℕ × Option ℕ),
      (buildStages g nf cfg).1[i]? = some si →
      (buildStages g nf cfg).1[i + 1]? = some si1 →
      si1.2.1 = (si.2.1 + si.1 * g) / 2 ∧ si.2.2 = some si1.2.1 := by
  intro cfg
  induction cfg with
  | nil => intro nf i si si1 h1 _; simp [buildStages] at h1
  | cons L rest ih =>
    intro nf i si si1 h1 h2
    cases rest with
    | nil => simp [buildStages] at h1 h2
    | cons L' rest' =>
      have hrepr : (buildStages g nf (L :: L' :: rest')).1 =
          (L, nf, some ((nf + L * g) / 2)) ::
            (buildStages g ((nf + L * g) / 2) (L' :: rest')).1 := rfl
      rw [hrepr] at h1 h2
      cases i with
      | zero =>
        rw [List.getElem?_cons_zero] at h1
        rw [List.getElem?_cons_succ] at h2
        obtain ⟨o, tl, htl⟩ := buildStages_head g ((nf + L * g) / 2) L' rest'
        rw [htl, List.getElem?_cons_zero] at h2
        cases h1
        cases h2
        exact ⟨rfl, rfl⟩
      | succ j =>
        rw [List.getElem?_cons_succ] at h1 h2
        exact ih ((nf + L * g) / 2) j si si1 h1 h2

/-- The last stage of the `DenseNet.__init__` bookkeeping has no
transition, and the final `num_features` (the classifier input) is its
block input plus `num_layers * growth_rate`. -/
theorem buildStages_last (g : ℕ) :
    ∀ (cfg : List ℕ) (nf i : ℕ) (si : ℕ × ℕ × Option ℕ),
      (buildStages g nf cfg).1[i]? = some si →
      i + 1 = (buildStages g nf cfg).1.length →
      si.2.2 = none ∧ (buildStages g nf cfg).2 = si.2.1 + si.1 * g := by
  intro cfg
  induction cfg with
  | nil => intro nf i si h1 _; simp [buildStages] at h1
  | cons L rest ih =>
    intro nf i si h1 hlen
    cases rest with
    | nil =>
      cases i with
      | zero =>
        simp only [buildStages, List.getElem?_cons_zero] at h1
        cases h1
        exact ⟨rfl, rfl⟩
      | succ j => simp [buildStages] at h1
    | cons L' rest' =>
      have hrepr : (buildStages g nf (L :: L' :: rest')).1 =
          (L, nf, some ((nf + L * g) / 2)) ::
            (buildStages g ((nf + L * g) / 2) (L' :: rest')).1 := rfl
      rw [hrepr] at h1 hlen
      cases i with
      | zero =>
        exfalso
        rw [List.length_cons, buildStages_length] at hlen
        simp at hlen
      | succ j =>
        rw [List.getElem?_cons_succ] at h1
        rw [List.length_cons] at hlen
        have := ih ((nf + L * g) / 2) j si h1 (by omega)
        exact this

/-- Every transition built by `DenseNet.__init__` emits half the channels
its stage's concatenation produced. -/
theorem buildStages_transOut (g : ℕ) :
    ∀ (cfg : List ℕ) (nf i : ℕ) (si : ℕ × ℕ × Option ℕ) (t : ℕ),
      (buildStages g nf cfg).1[i]? = some si → si.2.2 = some t →
      t = (si.2.1 + si.1 * g) / 2 := by
  intro cfg
  induction cfg with
  | nil => intro nf i si t h1 _; simp [buildStages] at h1
  | cons L rest ih =>
    intro nf i si t h1 h2
    cases rest with
    | nil =>
      cases i with
      | zero =>
        simp only [buildStages, List.getElem?_cons_zero] at h1
        cases h1
        simp at h2
      | succ j => simp [buildStages] at h1
    | cons L' rest' =>
      have hrepr : (buildStages g nf (L :: L' :: rest')).1 =
          (L, nf, some ((nf + L * g) / 2)) ::
            (buildStages g ((nf + L * g) / 2) (L' :: rest')).1 := rfl
      rw [hrepr] at h1
      cases i with
      | zero =>
        rw [List.getElem?_cons_zero] at h1
        cases h1
        simp only at h2
        cases h2
        rfl
      | succ j =>
        rw [List.getElem?_cons_succ] at h1
        exact ih ((nf + L * g) / 2) j si t h1 h2

/-- C1: for a `DenseNet` built with growth rate `g`, per-stage layer counts
`cfg` and initial feature count `m`, (i) each non-final stage is followed by
a transition receiving `c + n_i * g` channels and emitting
`(c + n_i * g) / 2`, which is exactly the block input of the next stage;
(ii) a stage's `_DenseBlock` turns its `c` input channels into `c + n_i * g`
output channels by concatenation; (iii) the last stage has no transition and
the classifier input equals the channel count leaving it, with no halving. -/
theorem claim1_stage_channel_chain (g bn m n h w : ℕ) (cfg : List ℕ)
    (hh : 1 ≤ h) (hw : 1 ≤ w) :
    (∀ (i : ℕ) (si si1 : ℕ × ℕ × Option ℕ),
        (buildStages g m cfg).1[i]? = some si →
        (buildStages g m cfg).1[i + 1]? = some si1 →
        si1.2.1 = (si.2.1 + si.1 * g) / 2 ∧ si.2.2 = some si1.2.1) ∧
    (∀ (i : ℕ) (si : ℕ × ℕ × Option ℕ), (buildStages g m cfg).1[i]? = some si →
        denseBlockSh si.1 si.2.1 bn g ⟨n, si.2.1, h, w⟩ =
          some ⟨n, si.2.1 + si.1 * g, h, w⟩) ∧
    (∀ (i : ℕ) (si : ℕ × ℕ × Option ℕ), (buildStages g m cfg).1[i]? = some si →
        i + 1 = (buildStages g m cfg).1.length →
        si.2.2 = none ∧ (buildStages g m cfg).2 = si.2.1 + si.1 * g) :=
  ⟨fun i si si1 h1 h2 => buildStages_chain g cfg m i si si1 h1 h2,
   fun _ si h1 =>
     let _ := h1
     denseBlockSh_eval si.1 si.2.1 g bn n h w hh hw,
   fun i si h1 h2 => buildStages_last g cfg m i si h1 h2⟩

theorem claim1_stage_channel_chain_witness :
    (1 ≤ 7 ∧ 1 ≤ 7) ∧
    ((128 : ℕ) = (64 + 6 * 32) / 2 ∧
      (some (128 : ℕ) : Option ℕ) = some 128) :=
  ⟨⟨by decide, by decide⟩,
    (claim1_stage_channel_chain 32 4 64 1 7 7 [6, 12, 24, 16] (by decide)
        (by decide)).1 0 (6, 64, some 128) (12, 128, some 256) (by decide)
      (by decide)⟩

/-- C2 (amended): a forward pass on a batch `(n, 3, H, W)` yields
`(n, num_classes)` whenever the spatial sizes after the feature extractor
land in `[7, 13]` in both dimensions, so that the fixed
`F.avg_pool2d(kernel_size=7)` emits `1 x 1` and the flattened feature count
matches the classifier; for the default configuration this means
`221 ≤ H, W ≤ 444` (in particular the `224 x 224` inputs the notebook
uses), not every size above the minimum receptive field. -/
theorem claim2_forward_shape_amended (g : ℕ) (cfg : List ℕ)
    (m bn nc n H W : ℕ) (hcfg : cfg ≠ []) (hg : 0 < g) (hm : 0 < m)
    (hbn : 0 < bn)
    (hH1 : 7 ≤ featuresSpatial (cfg.length - 1) H)
    (hH2 : featuresSpatial (cfg.length - 1) H ≤ 13)
    (hW1 : 7 ≤ featuresSpatial (cfg.length - 1) W)
    (hW2 : featuresSpatial (cfg.length - 1) W ≤ 13) :
    densenetForwardSh g cfg m bn nc ⟨n, 3, H, W⟩ = some (n, nc) :=
  let _ := hg
  let _ := hm
  let _ := hbn
  densenetForwardSh_eval g cfg m bn nc n H W hcfg hH1 hH2 hW1 hW2

theorem claim2_forward_shape_witness :
    (([6, 12, 24, 16] : List ℕ) ≠ [] ∧ 0 < 32 ∧ 0 < 64 ∧ 0 < 4 ∧
      7 ≤ featuresSpatial 3 224 ∧ featuresSpatial 3 224 ≤ 13) ∧
    densenetForwardSh 32 [6, 12, 24, 16] 64 4 1000 ⟨1, 3, 224, 224⟩ =
      some (1, 1000) :=
  ⟨⟨by decide, by decide, by decide, by decide, by decide, by decide⟩,
    claim2_forward_shape_amended 32 [6, 12, 24, 16] 64 4 1000 1 224 224
      (by decide) (by decide) (by decide) (by decide) (by decide) (by decide)
      (by decide) (by decide)⟩

/-- C2 counterexample: at the batch `(1, 3, 448, 448)` every convolution and
pooling of the default-configured network applies — the pipeline through the
final 7x7 average pool succeeds and yields `(1, 1024, 2, 2)` — yet
`DenseNet.forward` does not return `(1, num_classes)`: the flattened
`1024 * 2 * 2 = 4096` features mismatch the classifier's `1024` input
features and the pass fails, refuting the claim for this `H, W` above the
minimum receptive-field size. -/
theorem claim2_forward_shape_counterexample :
    densenetPoolSh 32 [6, 12, 24, 16] 64 4 ⟨1, 3, 448, 448⟩ =
      some ⟨1, 1024, 2, 2⟩ ∧
    densenetForwardSh 32 [6, 12, 24, 16] 64 4 1000 ⟨1, 3, 448, 448⟩ =
      none := by
  decide

/-- C5: a `_Transition(c_in, c_out)` on an accepted input of spatial size
`h x w` emits `c_out` channels at spatial size `(h / 2) x (w / 2)` via its
stride-2 average pool; and every transition instantiated by
`DenseNet.__init__` is built with `c_out = c_in / 2` of its own input
channel count. -/
theorem claim5_transition_shape (cin cout n h w g m : ℕ) (cfg : List ℕ)
    (hh : 2 ≤ h) (hw : 2 ≤ w) :
    transitionSh cin cout ⟨n, cin, h, w⟩ = some ⟨n, cout, h / 2, w / 2⟩ ∧
    (∀ (i : ℕ) (si : ℕ × ℕ × Option ℕ) (t : ℕ),
        (buildStages g m cfg).1[i]? = some si → si.2.2 = some t →
        t = (si.2.1 + si.1 * g) / 2) :=
  ⟨transitionSh_eval cin cout n h w hh hw,
   fun i si t h1 h2 => buildStages_transOut g cfg m i si t h1 h2⟩

theorem claim5_transition_shape_witness :
    (2 ≤ 4 ∧ 2 ≤ 6) ∧
    transitionSh 64 5 ⟨1, 64, 4, 6⟩ = some ⟨1, 5, 2, 3⟩ ∧
    (256 : ℕ) = (128 + 12 * 32) / 2 :=
  ⟨⟨by decide, by decide⟩,
    (claim5_transition_shape 64 5 1 4 6 32 64 [6, 12, 24, 16] (by decide)
        (by decide)).1,
    (claim5_transition_shape 64 5 1 4 6 32 64 [6, 12, 24, 16] (by decide)
        (by decide)).2 1 (12, 128, some 256) 256 (by decide) (by decide)⟩

/-- C6: the classifier built by `DenseNet.__init__` is a linear layer with
`out_features` equal to the configured class count, and whenever a forward
pass returns at all, the logits' feature dimension equals that class
count. -/
theorem claim6_classifier_dim (g m bn nc : ℕ) (cfg : List ℕ) (x : Sh4)
    (s : ℕ × ℕ) (hs : densenetForwardSh g cfg m bn nc x = some s) :
    (classifierSh g m cfg nc).2 = nc ∧ s.2 = nc := by
  refine ⟨rfl, ?_⟩
  unfold densenetForwardSh at hs
  cases hpool : densenetPoolSh g cfg m bn x with
  | none => rw [hpool] at hs; simp at hs
  | some y =>
    rw [hpool, Option.some_bind] at hs
    unfold linearSh at hs
    by_cases hc : ((y.n, y.c * y.h * y.w) : ℕ × ℕ).2 = finalNumFeatures g m cfg
    · rw [if_pos hc] at hs
      cases hs
      rfl
    · rw [if_neg hc] at hs
      cases hs

theorem mapWithIdx_length {α β : Type} (f : ℕ → α → β) :
    ∀ (i : ℕ) (l : List α), (mapWithIdx f i l).length = l.length := by
  intro i l
  induction l generalizing i with
  | nil => rfl
  | cons a t ih => simp [mapWithIdx, ih]

/-- Channel-level evaluation of one dense layer on a matching input:
the forward pass succeeds, the output is `g` channels longer, and its
leading `x.length` channels are the input itself. -/
theorem denseLayerForward_eval {α : Type} (nif g bn : ℕ) (dr : ℚ)
    (p : DLP α) (x : List α) (hx : x.length = nif) :
    ∃ out, denseLayerForward nif g bn dr p x = some out ∧
      out.length = nif + g ∧ out.take x.length = x := by
  have h1 : batchNorm2dC nif p.bn1 x = some (mapWithIdx p.bn1 0 x) := by
    unfold batchNorm2dC
    rw [if_pos hx]
  have ht2 : (reluC p.relu (mapWithIdx p.bn1 0 x)).length = nif := by
    simp [reluC, mapWithIdx_length, hx]
  have h2 : conv2dC nif (bn * g) p.conv1 (reluC p.relu (mapWithIdx p.bn1 0 x)) =
      some ((List.range (bn * g)).map fun j =>
        p.conv1 j (reluC p.relu (mapWithIdx p.bn1 0 x))) := by
    unfold conv2dC
    rw [if_pos ht2]
  have ht3 : ((List.range (bn * g)).map fun j =>
      p.conv1 j (reluC p.relu (mapWithIdx p.bn1 0 x))).length = bn * g := by
    simp
  have h3 : batchNorm2dC (bn * g) p.bn2 ((List.range (bn * g)).map fun j =>
      p.conv1 j (reluC p.relu (mapWithIdx p.bn1 0 x))) =
      some (mapWithIdx p.bn2 0 ((List.range (bn * g)).map fun j =>
        p.conv1 j (reluC p.relu (mapWithIdx p.bn1 0 x)))) := by
    unfold batchNorm2dC
    rw [if_pos ht3]
  have ht5 : (reluC p.relu (mapWithIdx p.bn2 0 ((List.range (bn * g)).map fun j =>
      p.conv1 j (reluC p.relu (mapWithIdx p.bn1 0 x))))).length = bn * g := by
    simp [reluC, mapWithIdx_length]
  have h4 : conv2dC (bn * g) g p.conv2 (reluC p.relu (mapWithIdx p.bn2 0
      ((List.range (bn * g)).map fun j =>
        p.conv1 j (reluC p.relu (mapWithIdx p.bn1 0 x))))) =
      some ((List.range g).map fun j =>
        p.conv2 j (reluC p.relu (mapWithIdx p.bn2 0 ((List.range (bn * g)).map
          fun j1 => p.conv1 j1 (reluC p.relu (mapWithIdx p.bn1 0 x)))))) := by
    unfold conv2dC
    rw [if_pos ht5]
  have hfwd : denseLayerForward nif g bn dr p x =
      some (x ++ (if 0 < dr then
        dropoutC p.drop ((List.range g).map fun j =>
          p.conv2 j (reluC p.relu (mapWithIdx p.bn2 0 ((List.range (bn * g)).map
            fun j1 => p.conv1 j1 (reluC p.relu (mapWithIdx p.bn1 0 x))))))
      else ((List.range g).map fun j =>
          p.conv2 j (reluC p.relu (mapWithIdx p.bn2 0 ((List.range (bn * g)).map
            fun j1 => p.conv1 j1 (reluC p.relu (mapWithIdx p.bn1 0 x)))))))) := by
    unfold denseLayerForward
    rw [h1, Option.map_some', Option.some_bind, h2, Option.some_bind, h3,
      Option.map_some', Option.some_bind, h4, Option.map_some']
  refine ⟨_, hfwd, ?_, ?_⟩
  · have hlen : (if 0 < dr then
        dropoutC p.drop ((List.range g).map fun j =>
          p.conv2 j (reluC p.relu (mapWithIdx p.bn2 0 ((List.range (bn * g)).map
            fun j1 => p.conv1 j1 (reluC p.relu (mapWithIdx p.bn1 0 x))))))
      else ((List.range g).map fun j =>
          p.conv2 j (reluC p.relu (mapWithIdx p.bn2 0 ((List.range (bn * g)).map
            fun j1 => p.conv1 j1 (reluC p.relu (mapWithIdx p.bn1 0 x))))))).length
        = g := by
      split
      · simp [dropoutC]
      · simp
    rw [List.length_append, hx, hlen]
  · exact List.take_left x _

/-- At the channel level a dense block over `nil` layer parameters is the
identity. -/
theorem denseBlockForward_nil {α : Type} (g bn : ℕ) (dr : ℚ) (nif : ℕ)
    (x : List α) : denseBlockForward g bn dr nif [] x = some x := rfl

theorem foldl_option_bind_none {γ α : Type} (F : γ → α → Option α) :
    ∀ l : List γ, l.foldl (fun acc pr => acc.bind (F pr)) none = none := by
  intro l
  induction l with
  | nil => rfl
  | cons a t ih => simpa [List.foldl_cons] using ih

theorem foldl_option_bind_acc {γ α : Type} (F : γ → α → Option α)
    (o : Option α) (l : List γ) :
    l.foldl (fun acc pr => acc.bind (F pr)) o =
      o.bind fun y => l.foldl (fun acc pr => acc.bind (F pr)) (some y) := by
  cases o with
  | none => simpa using foldl_option_bind_none F l
  | some y => rfl

theorem denseBlockNifs_cons (L nif g : ℕ) :
    denseBlockNifs (L + 1) nif g = nif :: denseBlockNifs L (nif + g) g := by
  unfold denseBlockNifs
  rw [List.range_succ_eq_map, List.map_cons, List.map_map]
  refine congrArg₂ _ (by simp) ?_
  apply List.map_congr_left
  intro a _
  simp [Function.comp, Nat.succ_mul]
  ring

/-- Unfolding one layer of the channel-level dense-block forward. -/
theorem denseBlockForward_cons {α : Type} (g bn : ℕ) (dr : ℚ) (nif : ℕ)
    (p : DLP α) (ps : List (DLP α)) (x : List α) :
    denseBlockForward g bn dr nif (p :: ps) x =
      (denseLayerForward nif g bn dr p x).bind
        (denseBlockForward g bn dr (nif + g) ps) := by
  unfold denseBlockForward
  rw [List.length_cons, denseBlockNifs_cons, List.zip_cons_cons,
    List.foldl_cons, Option.some_bind]
  rw [foldl_option_bind_acc]

/-- Channel-level evaluation of a dense block on a matching input:
the forward pass succeeds, the output is `num_layers * growth_rate` channels
longer, and its leading channels are the block input itself. -/
theorem denseBlockForward_eval {α : Type} (g bn : ℕ) (dr : ℚ) :
    ∀ (ps : List (DLP α)) (nif : ℕ) (x : List α), x.length = nif →
      ∃ out, denseBlockForward g bn dr nif ps x = some out ∧
        out.length = nif + ps.length * g ∧ out.take x.length = x := by
  intro ps
  induction ps with
  | nil =>
    intro nif x hx
    exact ⟨x, rfl, by simpa using hx, by simp⟩
  | cons p ps ih =>
    intro nif x hx
    obtain ⟨y, hy, hylen, hytake⟩ := denseLayerForward_eval nif g bn dr p x hx
    obtain ⟨out, hout, holen, hotake⟩ := ih (nif + g) y hylen
    refine ⟨out, ?_, ?_, ?_⟩
    · rw [denseBlockForward_cons, hy, Option.some_bind, hout]
    · rw [holen, List.length_cons]
      ring
    · have hxy : x.length ≤ y.length := by omega
      calc out.take x.length = (out.take y.length).take x.length := by
            rw [List.take_take, Nat.min_eq_left hxy]
        _ = y.take x.length := by rw [hotake]
        _ = x := hytake

/-- Unfolding the partial dense-block forward one layer at a time. -/
theorem denseBlockForward_take_succ {α : Type} (g bn : ℕ) (dr : ℚ) (nif : ℕ)
    (ps : List (DLP α)) (x : List α) (i : ℕ) (hi : i < ps.length) :
    denseBlockForward g bn dr nif (ps.take (i + 1)) x =
      (denseBlockForward g bn dr nif (ps.take i) x).bind
        (denseLayerForward (nif + i * g) g bn dr (ps.get ⟨i, hi⟩)) := by
  unfold denseBlockForward
  have hlen1 : (ps.take (i + 1)).length = i + 1 := by
    rw [List.length_take]
    omega
  have hlen0 : (ps.take i).length = i := by
    rw [List.length_take]
    omega
  rw [hlen1, hlen0, denseBlockNifs_succ, List.take_succ,
    List.getElem?_eq_getElem hi]
  show ((denseBlockNifs i nif g ++ [nif + i * g]).zip
      (ps.take i ++ [ps[i]])).foldl _ _ = _
  rw [List.zip_append (by simp [denseBlockNifs, hlen0]), List.foldl_append]
  rfl

/-- C3: a `_DenseLayer` built with `num_input_features = C` and growth rate
`g`, applied to an accepted input `x` of `C` channels, returns the
channel-dimension concatenation of `x` with the newly computed features:
the output has `C + g` channels and its first `C` channels are exactly
`x`. -/
theorem claim3_dense_layer_concat {α : Type} (nif g bn : ℕ) (dr : ℚ)
    (p : DLP α) (x : List α) (hx : x.length = nif) :
    ∃ out, denseLayerForward nif g bn dr p x = some out ∧
      out.length = nif + g ∧ out.take nif = x := by
  obtain ⟨out, h1, h2, h3⟩ := denseLayerForward_eval nif g bn dr p x hx
  exact ⟨out, h1, h2, by rw [← hx]; exact h3⟩

theorem claim3_dense_layer_concat_witness :
    [(5 : ℚ)].length = 1 ∧
    ∃ out, denseLayerForward 1 2 3 (1 / 2) constDLP [(5 : ℚ)] = some out ∧
      out.length = 1 + 2 ∧ out.take 1 = [(5 : ℚ)] :=
  ⟨rfl, claim3_dense_layer_concat 1 2 3 (1 / 2) constDLP [(5 : ℚ)] rfl⟩

/-- C4: a `_DenseBlock` built with `num_layers = L`, `num_input_features =
c0` and growth rate `g` (i) constructs its `i`-th dense layer with
`c0 + i * g` input channels; (ii) on an accepted input its forward output
has `c0 + L * g` channels with the block input as leading channels; and
(iii) the value fed to layer `i + 1` is the value fed to layer `i` extended
by that layer's `g` new feature channels, so each layer sees the block input
together with all preceding layers' outputs. -/
theorem claim4_dense_block_structure {α : Type} (g bn : ℕ) (dr : ℚ)
    (nif : ℕ) (ps : List (DLP α)) (x : List α) (hx : x.length = nif) :
    (∀ i : ℕ, i < ps.length →
        (denseBlockNifs ps.length nif g)[i]? = some (nif + i * g)) ∧
    (∃ out, denseBlockForward g bn dr nif ps x = some out ∧
        out.length = nif + ps.length * g ∧ out.take nif = x) ∧
    (∀ i : ℕ, i < ps.length → ∃ y z,
        denseBlockForward g bn dr nif (ps.take i) x = some y ∧
        denseBlockForward g bn dr nif (ps.take (i + 1)) x = some z ∧
        y.length = nif + i * g ∧ z.take y.length = y ∧
        z.length = y.length + g) := by
  refine ⟨?_, ?_, ?_⟩
  · intro i hi
    unfold denseBlockNifs
    rw [List.getElem?_map, List.getElem?_range hi]
    rfl
  · obtain ⟨out, h1, h2, h3⟩ := denseBlockForward_eval g bn dr ps nif x hx
    exact ⟨out, h1, h2, by rw [← hx]; exact h3⟩
  · intro i hi
    have htl : (ps.take i).length = i := by
      rw [List.length_take]
      omega
    obtain ⟨y, hy, hylen, hytake⟩ :=
      denseBlockForward_eval g bn dr (ps.take i) nif x hx
    rw [htl] at hylen
    obtain ⟨z, hz, hzlen, hztake⟩ :=
      denseLayerForward_eval (nif + i * g) g bn dr (ps.get ⟨i, hi⟩) y hylen
    refine ⟨y, z, hy, ?_, hylen, hztake, ?_⟩
    · rw [denseBlockForward_take_succ g bn dr nif ps x i hi, hy,
        Option.some_bind, hz]
    · omega

theorem claim4_dense_block_structure_witness :
    [(5 : ℚ)].length = 1 ∧
    (denseBlockNifs 2 1 2)[1]? = some (1 + 1 * 2) :=
  ⟨rfl,
    (claim4_dense_block_structure 2 3 (1 / 2) 1 [constDLP, constDLP]
        [(5 : ℚ)] rfl).1 1 (by decide)⟩

theorem claim6_classifier_dim_witness :
    densenetForwardSh 32 [6, 12, 24, 16] 64 4 1000 ⟨1, 3, 224, 224⟩ =
      some (1, 1000) ∧
    ((classifierSh 32 64 [6, 12, 24, 16] 1000).2 = 1000 ∧
      (((1 : ℕ), (1000 : ℕ)) : ℕ × ℕ).2 = 1000) :=
  ⟨by decide,
    claim6_classifier_dim 32 64 4 1000 [6, 12, 24, 16] ⟨1, 3, 224, 224⟩
      (1, 1000) (by decide)⟩

/-!
Lemmas about the training loop.
-/

theorem trainFold_succ {M : Type} (step : ℕ → M → M) (accOf : M → ℚ) (m0 : M)
    (k : ℕ) :
    trainFold step accOf m0 (k + 1) =
      trainEpoch step accOf (trainFold step accOf m0 k) k := by
  unfold trainFold
  rw [List.range_succ, List.foldl_append, List.foldl_cons, List.foldl_nil]

/-- The fold state after `k` epochs is the live model, the running best
accuracy and the running snapshot. -/
theorem trainFold_eq {M : Type} (step : ℕ → M → M) (accOf : M → ℚ) (m0 : M) :
    ∀ k, trainFold step accOf m0 k =
      (mAfter step m0 k, bestAccAt step accOf m0 k, bestSnapAt step accOf m0 k) := by
  intro k
  induction k with
  | zero => rfl
  | succ k ih =>
    rw [trainFold_succ, ih]
    simp only [trainEpoch, accSeq, bestAccAt, bestSnapAt, mAfter]
    split_ifs with h
    · rfl
    · rfl

theorem bestAccAt_step_le {M : Type} (step : ℕ → M → M) (accOf : M → ℚ)
    (m0 : M) (k : ℕ) :
    bestAccAt step accOf m0 k ≤ bestAccAt step accOf m0 (k + 1) := by
  show bestAccAt step accOf m0 k ≤
    (if bestAccAt step accOf m0 k < accSeq step accOf m0 k then
      accSeq step accOf m0 k else bestAccAt step accOf m0 k)
  split_ifs with h
  · exact le_of_lt h
  · exact le_refl _

theorem bestAccAt_mono {M : Type} (step : ℕ → M → M) (accOf : M → ℚ) (m0 : M) :
    ∀ j k, j ≤ k → bestAccAt step accOf m0 j ≤ bestAccAt step accOf m0 k := by
  intro j k hjk
  induction k with
  | zero =>
    have : j = 0 := by omega
    rw [this]
  | succ k ih =>
    rcases (by omega : j ≤ k ∨ j = k + 1) with h | h
    · exact le_trans (ih h) (bestAccAt_step_le step accOf m0 k)
    · rw [h]

theorem bestAccAt_ub {M : Type} (step : ℕ → M → M) (accOf : M → ℚ) (m0 : M) :
    ∀ n e, e < n → accSeq step accOf m0 e ≤ bestAccAt step accOf m0 n := by
  intro n
  induction n with
  | zero => intro e he; exact absurd he (by omega)
  | succ n ih =>
    intro e he
    rcases (by omega : e < n ∨ e = n) with h | h
    · exact le_trans (ih e h) (bestAccAt_step_le step accOf m0 n)
    · rw [h]
      show accSeq step accOf m0 n ≤
        (if bestAccAt step accOf m0 n < accSeq step accOf m0 n then
          accSeq step accOf m0 n else bestAccAt step accOf m0 n)
      split_ifs with hh
      · exact le_refl _
      · exact not_lt.mp hh

/-- Structure of the best-tracking state: either no epoch ever beat the
initial `best_acc = 0.0` (and `best_model` still aliases the live model), or
the snapshot is the model right after the first epoch attaining the running
maximum. -/
theorem bestAt_struct {M : Type} (step : ℕ → M → M) (accOf : M → ℚ) (m0 : M) :
    ∀ n,
      (bestAccAt step accOf m0 n = 0 ∧ bestSnapAt step accOf m0 n = none ∧
        ∀ e, e < n → accSeq step accOf m0 e ≤ 0) ∨
      (∃ j, j < n ∧
        bestSnapAt step accOf m0 n = some (mAfter step m0 (j + 1)) ∧
        bestAccAt step accOf m0 n = accSeq step accOf m0 j ∧
        (∀ i, i < j → accSeq step accOf m0 i < accSeq step accOf m0 j) ∧
        (∀ i, i < n → accSeq step accOf m0 i ≤ accSeq step accOf m0 j)) := by
  intro n
  induction n with
  | zero => left; exact ⟨rfl, rfl, fun e he => absurd he (by omega)⟩
  | succ n ih =>
    by_cases h : bestAccAt step accOf m0 n < accSeq step accOf m0 n
    · right
      refine ⟨n, by omega, ?_, ?_, ?_, ?_⟩
      · show (if bestAccAt step accOf m0 n < accSeq step accOf m0 n then
          some (mAfter step m0 (n + 1)) else bestSnapAt step accOf m0 n) = _
        rw [if_pos h]
      · show (if bestAccAt step accOf m0 n < accSeq step accOf m0 n then
          accSeq step accOf m0 n else bestAccAt step accOf m0 n) = _
        rw [if_pos h]
      · intro i hin
        exact lt_of_le_of_lt (bestAccAt_ub step accOf m0 n i hin) h
      · intro i hin
        rcases (by omega : i < n ∨ i = n) with hi | hi
        · exact le_of_lt (lt_of_le_of_lt (bestAccAt_ub step accOf m0 n i hi) h)
        · rw [hi]
    · have hsnap : bestSnapAt step accOf m0 (n + 1) = bestSnapAt step accOf m0 n := by
        show (if bestAccAt step accOf m0 n < accSeq step accOf m0 n then
          some (mAfter step m0 (n + 1)) else bestSnapAt step accOf m0 n) = _
        rw [if_neg h]
      have hacc : bestAccAt step accOf m0 (n + 1) = bestAccAt step accOf m0 n := by
        show (if bestAccAt step accOf m0 n < accSeq step accOf m0 n then
          accSeq step accOf m0 n else bestAccAt step accOf m0 n) = _
        rw [if_neg h]
      rcases ih with ⟨hb, hs, hall⟩ | ⟨j, hj, hsj, hbj, hfirst, hmax⟩
      · left
        refine ⟨by rw [hacc, hb], by rw [hsnap, hs], ?_⟩
        intro e he
        rcases (by omega : e < n ∨ e = n) with hh | hh
        · exact hall e hh
        · rw [hh]
          have := not_lt.mp h
          rw [hb] at this
          exact this
      · right
        refine ⟨j, by omega, by rw [hsnap]; exact hsj, by rw [hacc]; exact hbj,
          hfirst, ?_⟩
        intro i hi
        rcases (by omega : i < n ∨ i = n) with hh | hh
        · exact hmax i hh
        · rw [hh]
          have := not_lt.mp h
          rw [hbj] at this
          exact this

/-- C7 (amended): over a run of `train_model` in which some epoch attains a
positive validation accuracy, `best_acc` is monotonically non-decreasing,
ends equal to the maximum validation accuracy over all epochs, and the
returned model is the deep-copy snapshot taken right after the first epoch
attaining that maximum.  (When every epoch's validation accuracy is `0`, no
copy is ever taken: `best_acc` still ends at the maximum `0`, but the
function returns the live, fully trained model it aliased, not an
epoch snapshot — see the counterexample.) -/
theorem claim7_train_best_tracking_amended {M : Type} (step : ℕ → M → M)
    (accOf : M → ℚ) (m0 : M) (n : ℕ)
    (hpos : ∃ e, e < n ∧ 0 < accSeq step accOf m0 e) :
    (∀ j k, j ≤ k → bestAccAt step accOf m0 j ≤ bestAccAt step accOf m0 k) ∧
    (∀ e, e < n → accSeq step accOf m0 e ≤ bestAccAt step accOf m0 n) ∧
    (∃ j, j < n ∧ bestAccAt step accOf m0 n = accSeq step accOf m0 j ∧
      train_model step accOf m0 n = mAfter step m0 (j + 1) ∧
      (∀ i, i < j → accSeq step accOf m0 i < accSeq step accOf m0 j) ∧
      (∀ i, i < n → accSeq step accOf m0 i ≤ accSeq step accOf m0 j)) := by
  rcases bestAt_struct step accOf m0 n with ⟨_, _, hall⟩ |
    ⟨j, hj, hsj, hbj, hfirst, hmax⟩
  · obtain ⟨e, he, hepos⟩ := hpos
    exact absurd (hall e he) (not_le.mpr hepos)
  · refine ⟨bestAccAt_mono step accOf m0, bestAccAt_ub step accOf m0 n, j, hj,
      hbj, ?_, hfirst, hmax⟩
    unfold train_model
    rw [trainFold_eq]
    show (bestSnapAt step accOf m0 n).getD (mAfter step m0 n) = _
    rw [hsj]
    rfl

theorem claim7_train_best_tracking_witness :
    (0 : ℚ) < accSeq (fun _ m => m + 1) (id : ℚ → ℚ) 0 0 ∧
    accSeq (fun _ m => m + 1) (id : ℚ → ℚ) 0 0 ≤
      bestAccAt (fun _ m => m + 1) (id : ℚ → ℚ) 0 2 := by
  have h : (0 : ℚ) < accSeq (fun _ m => m + 1) (id : ℚ → ℚ) 0 0 := by
    norm_num [accSeq, mAfter]
  exact ⟨h, (claim7_train_best_tracking_amended (fun _ m => m + 1)
    (id : ℚ → ℚ) 0 2 ⟨0, by norm_num, h⟩).2.1 0 (by norm_num)⟩

/-- C7 counterexample: a 2-epoch run in which every epoch's validation
accuracy is `0` (the maximum, first attained at epoch 0, is `0`): `best_acc`
ends at the maximum `0`, but no deep copy is ever taken
(`best_model` still aliases the live model) and `train_model` returns the
fully trained model `2 = mAfter 2` instead of the epoch-0 snapshot
`1 = mAfter 1` — refuting the claim that the returned model is a snapshot
taken at the first epoch achieving the maximum. -/
theorem claim7_train_best_tracking_counterexample :
    accSeq (fun _ (m : ℚ) => m + 1) (fun _ => 0) 0 0 = 0 ∧
    accSeq (fun _ (m : ℚ) => m + 1) (fun _ => 0) 0 1 = 0 ∧
    bestAccAt (fun _ (m : ℚ) => m + 1) (fun _ => 0) 0 2 = 0 ∧
    bestSnapAt (fun _ (m : ℚ) => m + 1) (fun _ => 0) 0 2 = none ∧
    train_model (fun _ (m : ℚ) => m + 1) (fun _ => 0) 0 2 = 2 ∧
    mAfter (fun _ (m : ℚ) => m + 1) 0 1 = 1 ∧ ((2 : ℚ) ≠ 1) := by
  refine ⟨rfl, rfl, ?_, ?_, ?_, ?_, by norm_num⟩
  · show (if (0 : ℚ) < 0 then _ else _) = (0 : ℚ)
    norm_num [bestAccAt, accSeq, mAfter]
  · norm_num [bestSnapAt, bestAccAt, accSeq, mAfter]
  · norm_num [train_model, trainFold, trainEpoch, List.range, List.range.loop]
  · norm_num [mAfter]

/-- C8: evidence for the visualization bug.  On a validation batch whose
first image has ground-truth label `0` (`"ants"`) while the model's logits
`[0, 1]` select class `1` (`"bees"`), `visualize_model` renders the title
`"pred: ants"` — the class name of the true label — although the model's
prediction (the argmax of the logits, which the code computes into `preds`
and then never uses) is `"bees"`.  The title printed under `pred:` is
therefore not the class selected by the model's output. -/
theorem claim8_visualize_pred_title_bug :
    visualize_model_title ["ants", "bees"] [0] [[(0 : ℚ), 1]] = "pred: ants" ∧
    argmaxIdx [(0 : ℚ), 1] = 1 ∧
    predictedTitle ["ants", "bees"] [[(0 : ℚ), 1]] = "pred: bees" ∧
    visualize_model_title ["ants", "bees"] [0] [[(0 : ℚ), 1]] ≠
      predictedTitle ["ants", "bees"] [[(0 : ℚ), 1]] := by
  refine ⟨rfl, ?_, ?_, ?_⟩
  · show argmaxAux [1] 0 0 1 = 1
    norm_num [argmaxAux]
  · show "pred: " ++ ["ants", "bees"].getD ((([[(0 : ℚ), 1]].map argmaxIdx)).getD 0 0) "" = _
    norm_num [argmaxIdx, argmaxAux]
    rfl
  · intro hcontra
    have h1 : visualize_model_title ["ants", "bees"] [0] [[(0 : ℚ), 1]] =
        "pred: ants" := rfl
    have h2 : predictedTitle ["ants", "bees"] [[(0 : ℚ), 1]] = "pred: bees" := by
      norm_num [predictedTitle, argmaxIdx, argmaxAux]
      rfl
    rw [h1, h2] at hcontra
    exact absurd hcontra (by decide)

/-- C9: `densenet121(pretrained, **kwargs)` silently drops every keyword
argument other than `pretrained`: the model it returns is always configured
with `growth_rate=32`, `block_config=(6, 12, 24, 16)`,
`num_init_features=64` and the default class count `1000` — independent of
any kwargs supplied — and pretrained weights are loaded exactly when
`pretrained` is true. -/
theorem claim9_densenet121_kwargs_ignored (pretrained : Bool)
    (kwargs kwargs' : List (String × ℕ)) :
    densenet121 pretrained kwargs = densenet121 pretrained kwargs' ∧
    (densenet121 pretrained kwargs).1 = ⟨32, [6, 12, 24, 16], 64, 4, 0, 1000⟩ ∧
    (densenet121 pretrained kwargs).1.num_classes = 1000 ∧
    ((densenet121 pretrained kwargs).2 = true ↔ pretrained = true) :=
  ⟨rfl, rfl, rfl, Iff.rfl⟩

/-- C10 (amended): the structural configuration fixed at construction is
never written by a forward pass — for a `DenseNet`, the configuration, the
per-stage channel bookkeeping, the classifier input size and the parameters
are unchanged by `forward`; for a `_DenseLayer`, its channel-count
arguments, `drop_rate` and parameters are unchanged by `forward`; an
eval-mode forward changes nothing at all; and the optimizer step mutates
only the parameter collection.  However — contrary to the claim's final
clause — a training-mode forward does mutate non-parameter state: the batch
norms' running-statistic buffers (see the counterexample). -/
theorem claim10_forward_frame_amended {P : Type} (training : Bool)
    (s : NetState P) (x : Sh4) (f : P → P) (ls : LayerState P) :
    ((NetState.forward training s x).2.cfg = s.cfg ∧
      (NetState.forward training s x).2.stages = s.stages ∧
      (NetState.forward training s x).2.classifier_in = s.classifier_in ∧
      (NetState.forward training s x).2.params = s.params) ∧
    (NetState.forward false s x).2 = s ∧
    ((sgdStep f s).cfg = s.cfg ∧ (sgdStep f s).stages = s.stages ∧
      (sgdStep f s).classifier_in = s.classifier_in ∧
      (sgdStep f s).norm0_batches_tracked = s.norm0_batches_tracked) ∧
    ((LayerState.forward training ls x).2.num_input_features =
        ls.num_input_features ∧
      (LayerState.forward training ls x).2.growth_rate = ls.growth_rate ∧
      (LayerState.forward training ls x).2.bn_size = ls.bn_size ∧
      (LayerState.forward training ls x).2.drop_rate = ls.drop_rate ∧
      (LayerState.forward training ls x).2.params = ls.params) := by
  cases training <;>
    exact ⟨⟨rfl, rfl, rfl, rfl⟩, rfl, ⟨rfl, rfl, rfl, rfl⟩,
      ⟨rfl, rfl, rfl, rfl, rfl⟩⟩

/-- C10 counterexample: a training-mode forward pass mutates the network
instance even though the optimizer never ran: the `norm0` batch norm's
`num_batches_tracked` buffer — a tensor that is not a parameter — changes
from `0` to `1`, while the configuration and the parameters are untouched.
So it is not the case that only parameter tensors are mutated, and only by
the optimizer. -/
theorem claim10_forward_frame_counterexample :
    (NetState.forward true
        (mkDenseNet ⟨32, [6, 12, 24, 16], 64, 4, 0, 1000⟩ (0 : ℕ))
        ⟨1, 3, 224, 224⟩).2 ≠
      mkDenseNet ⟨32, [6, 12, 24, 16], 64, 4, 0, 1000⟩ (0 : ℕ) ∧
    (NetState.forward true
        (mkDenseNet ⟨32, [6, 12, 24, 16], 64, 4, 0, 1000⟩ (0 : ℕ))
        ⟨1, 3, 224, 224⟩).2.norm0_batches_tracked = 1 ∧
    (mkDenseNet ⟨32, [6, 12, 24, 16], 64, 4, 0, 1000⟩
        (0 : ℕ)).norm0_batches_tracked = 0 ∧
    (NetState.forward true
        (mkDenseNet ⟨32, [6, 12, 24, 16], 64, 4, 0, 1000⟩ (0 : ℕ))
        ⟨1, 3, 224, 224⟩).2.params =
      (mkDenseNet ⟨32, [6, 12, 24, 16], 64, 4, 0, 1000⟩ (0 : ℕ)).params ∧
    (NetState.forward true
        (mkDenseNet ⟨32, [6, 12, 24, 16], 64, 4, 0, 1000⟩ (0 : ℕ))
        ⟨1, 3, 224, 224⟩).2.cfg =
      (mkDenseNet ⟨32, [6, 12, 24, 16], 64, 4, 0, 1000⟩ (0 : ℕ)).cfg := by
  refine ⟨?_, rfl, rfl, rfl, rfl⟩
  intro hcontra
  have h1 := congrArg (NetState.norm0_batches_tracked) hcontra
  simp [NetState.forward, mkDenseNet] at h1

end DenseNetNB
